import Mathlib

/-!
Verification of the test-scoring and interpretation engine.

Shallow embedding of the psychological-test scoring engine of the bot
repository. The authoritative code path is `updated_handlers.py`
(`select_test`, `process_test_answer`, `show_test_question`,
`calculate_test_result`); the older revision `handlers.py`
(`calculate_test_result`) is embedded separately with an `old_` prefix for
the cross-revision comparison.

Python dictionaries keyed by subscale id are embedded as association
lists in insertion order; `dict.get(k, d)` becomes `lookupD`, and
`d[k].append(v)` (which raises `KeyError` on a missing key) becomes
`bucketAppend`, returning `none` on a missing key. A Python `IndexError` /
`KeyError` (an unhandled exception) is modelled as `none` / the
`StepResult.crashed` outcome. The per-user `context.user_data` mapping is
embedded as the `SessionState` structure.
-/

/-- One option of a question is a label (`question["answers"][i]`) paired
positionally with a score (`question["scores"][i]`); a question optionally
carries a subscale id (`question.get("subscale")`) and a reverse flag
(`question.get("reverse", False)`), which the engine reads but never acts
on (the reversal is pre-encoded in `scores`). -/
structure Question where
  text : String
  answers : List String
  scores : List Int
  subscale : Option String := none
  reverse : Bool := false
deriving Repr, DecidableEq

/-- One entry of an interpretation table: an inclusive score range
`[min_score, max_score]` with its interpretation text. -/
structure Interp where
  min_score : Int
  max_score : Int
  text : String
deriving Repr, DecidableEq

/-- Embeds `test_data.get("calculation_type")`: `"subscales"` or anything else
(the default summation path). -/
inductive CalcType where
  | sum
  | subscales
deriving Repr, DecidableEq

/-- A test definition from the catalog dictionaries (`ALL_TESTS`). The
dynamically-typed `interpretations` field (a list for `sum` tests, a dict
keyed by subscale id for `subscales` tests) is split into the two typed
fields `interpretations` and `subscale_interpretations`. -/
structure TestDef where
  name : String
  questions : List Question
  calculation_type : CalcType
  subscales : List String := []
  interpretations : List Interp := []
  subscale_interpretations : List (String × List Interp) := []
deriving Repr, DecidableEq

/-- Association-list lookup with a default: embeds Python
`dict.get(key, default)` over a dict in insertion order. -/
def lookupD {α : Type} : List (String × α) → String → α → α
  | [], _, d => d
  | (k, v) :: rest, key, d => if k = key then v else lookupD rest key d

/-- Whether an association list has an entry for `key`
(Python `key in dict`). -/
def hasKey {α : Type} : List (String × α) → String → Bool
  | [], _ => false
  | (k, _) :: rest, key => if k = key then true else hasKey rest key

/-- Embeds `dict[key].append(v)` on a dict of lists: appends `v` at `key`, or
fails (Python `KeyError`) when the key is absent. -/
def bucketAppend : List (String × List Nat) → String → Nat → Option (List (String × List Nat))
  | [], _, _ => none
  | (k, vs) :: rest, key, v =>
    if k = key then some ((k, vs ++ [v]) :: rest)
    else (bucketAppend rest key v).map (fun b => (k, vs) :: b)

/-- The test-taking portion of `context.user_data`: the current question
index, the ordered list of selected option indices, and (for `subscales`
tests) the per-subscale answer buckets. -/
structure SessionState where
  current_question : Nat
  answers : List Nat
  subscale_answers : List (String × List Nat)
deriving Repr, DecidableEq

/-- Embeds `select_test` (updated_handlers.py lines 242-251): initializes the
session with `current_question = 0`, empty `answers`, and — for
`subscales` tests — one empty bucket per declared subscale. -/
def select_test (test : TestDef) : SessionState :=
  { current_question := 0
    answers := []
    subscale_answers :=
      match test.calculation_type with
      | .subscales => test.subscales.map (fun s => (s, ([] : List Nat)))
      | .sum => [] }

/-- The answer-saving portion of `process_test_answer`
(updated_handlers.py lines 301-318): for a `subscales` test the current
question is looked up (`IndexError` → `none`) and, when it carries a
truthy subscale — the guard `if subscale:` at line 307 is false both for
a missing subscale and for the empty string — the option index is
appended to that subscale's bucket (`KeyError` → `none`); in every branch
the option index is appended to `answers` and `current_question` advances
by 1. No validation of the option index takes place. -/
def record_answer (test : TestDef) (st : SessionState) (answer_num : Nat) : Option SessionState :=
  match test.calculation_type with
  | .subscales =>
    match test.questions.get? st.current_question with
    | none => none
    | some q =>
      match q.subscale with
      | some s =>
        if s = "" then
          some { current_question := st.current_question + 1
                 answers := st.answers ++ [answer_num]
                 subscale_answers := st.subscale_answers }
        else
          match bucketAppend st.subscale_answers s answer_num with
          | none => none
          | some b =>
            some { current_question := st.current_question + 1
                   answers := st.answers ++ [answer_num]
                   subscale_answers := b }
      | none =>
        some { current_question := st.current_question + 1
               answers := st.answers ++ [answer_num]
               subscale_answers := st.subscale_answers }
  | .sum =>
    some { current_question := st.current_question + 1
           answers := st.answers ++ [answer_num]
           subscale_answers := st.subscale_answers }

/-- Replays a list of answer selections through `record_answer`,
propagating a Python exception (`none`) from any step. -/
def runAnswers (test : TestDef) : SessionState → List Nat → Option SessionState
  | st, [] => some st
  | st, a :: rest =>
    match record_answer test st a with
    | none => none
    | some st2 => runAnswers test st2 rest

/-- The interpretation lookup (updated_handlers.py lines 441-445 and
406-410): starts from the empty string and takes the text of the first
entry whose inclusive range contains the score, breaking at the first
match; an unmatched score keeps the empty string. -/
def findInterpretation : List Interp → Int → String
  | [], _ => ""
  | r :: rest, score =>
    if r.min_score ≤ score ∧ score ≤ r.max_score then r.text
    else findInterpretation rest score

/-- The sum-scoring loop (updated_handlers.py lines 426-435):
`for i, answer_idx in enumerate(answers): score += questions[i]["scores"][answer_idx]`;
an out-of-range question or option index raises (`none`). -/
def scoreList : List Question → List Nat → Option Int
  | _, [] => some 0
  | [], _ :: _ => none
  | q :: qs, a :: rest =>
    match q.scores.get? a with
    | none => none
    | some s => (scoreList qs rest).map (fun t => s + t)

/-- One subscale's score (updated_handlers.py lines 384-396): the
questions of the subscale in encounter order, paired positionally with
that subscale's answer bucket. -/
def subscaleScore (test : TestDef) (buckets : List (String × List Nat)) (s : String) : Option Int :=
  scoreList (test.questions.filter (fun q => q.subscale == some s))
    (lookupD buckets s [])

/-- The per-subscale score map (updated_handlers.py lines 383-398), built
over the declared subscales in order. -/
def subscaleScoresList (test : TestDef) (buckets : List (String × List Nat)) :
    List String → Option (List (String × Int))
  | [] => some []
  | s :: rest =>
    match subscaleScore test buckets s with
    | none => none
    | some v => (subscaleScoresList test buckets rest).map (fun l => (s, v) :: l)

/-- The outcome of the scoring computation proper: either a total score
with its interpretation (`sum`) or per-subscale scores with per-subscale
interpretations (`subscales`). -/
inductive TestOutcome where
  | sumResult (score : Int) (interpretation : String)
  | subscalesResult (subscale_scores : List (String × Int))
      (interpretations : List (String × String))
deriving Repr, DecidableEq

/-- The pure score-and-interpretation computation of
`calculate_test_result` (updated_handlers.py lines 378-448), with the
message/persistence glue stripped; `none` models an unhandled Python
exception (out-of-range option index or missing bucket key). -/
def computeOutcome (test : TestDef) (st : SessionState) : Option TestOutcome :=
  match test.calculation_type with
  | .subscales =>
    match subscaleScoresList test st.subscale_answers test.subscales with
    | none => none
    | some scores =>
      some (.subscalesResult scores
        (scores.map (fun p =>
          (p.1, findInterpretation (lookupD test.subscale_interpretations p.1 []) p.2))))
  | .sum =>
    match scoreList test.questions st.answers with
    | none => none
    | some score => some (.sumResult score (findInterpretation test.interpretations score))

/-- A row of the `test_results` table as written by
`db.save_test_result` (database.py lines 709-754). -/
structure ResultRecord where
  user_id : Int
  test_type : String
  score : Int
  answers : List Nat
  interpretation : String
deriving Repr, DecidableEq

/-- Models Python `str(interpretations)` (updated_handlers.py line 422):
a textual rendering of the subscale → interpretation dict; the claims
never depend on the exact dict-literal formatting. -/
def interpretationsRepr (l : List (String × String)) : String :=
  String.intercalate ", " (l.map (fun p => p.1 ++ ": " ++ p.2))

/-- The `test_results` row built by `calculate_test_result`: for a
`subscales` test the stored score is `sum(subscale_scores.values())`
(line 420) and the stored interpretation is `str(interpretations)`
(line 422). -/
def resultRecord (user : Int) (test : TestDef) (st : SessionState) :
    TestOutcome → ResultRecord
  | .sumResult score interp =>
    { user_id := user, test_type := test.name, score := score
      answers := st.answers, interpretation := interp }
  | .subscalesResult scores interps =>
    { user_id := user, test_type := test.name
      score := (scores.map Prod.snd).sum
      answers := st.answers, interpretation := interpretationsRepr interps }

/-- The user-visible outcome of one handler step. `errorEnded` is an
error message followed by `ConversationHandler.END`; `cancelled` is the
cancellation message/`END`; `crashed` is an unhandled Python exception;
`askQuestion` renders a question (state `TAKING_TEST`); `resultReady` is
the completion message (state `SHOWING_RESULT`). -/
inductive StepResult where
  | errorEnded
  | cancelled
  | crashed
  | askQuestion (q : Question)
  | resultReady (o : TestOutcome)
deriving Repr, DecidableEq

/-- Embeds `calculate_test_result` (updated_handlers.py lines 363-471) as a
function of the result store: with a missing test or an empty answer
list it shows an error and ends (lines 373-375) without touching the
store; otherwise it computes the outcome and appends exactly one result
row. -/
def calculate_test_result (user : Int) (testOpt : Option TestDef) (st : SessionState)
    (store : List ResultRecord) : List ResultRecord × StepResult :=
  match testOpt with
  | none => (store, .errorEnded)
  | some test =>
    if st.answers.isEmpty then (store, .errorEnded)
    else
      match computeOutcome test st with
      | none => (store, .crashed)
      | some o => (store ++ [resultRecord user test st o], .resultReady o)

/-- Embeds `show_test_question` (updated_handlers.py lines 323-361): error when
the selected test is unknown; result computation once
`current_question >= len(questions)`; otherwise the current question is
rendered. -/
def show_test_question (user : Int) (testOpt : Option TestDef) (st : SessionState)
    (store : List ResultRecord) : List ResultRecord × StepResult :=
  match testOpt with
  | none => (store, .errorEnded)
  | some test =>
    if h : st.current_question < test.questions.length then
      (store, .askQuestion (test.questions.get ⟨st.current_question, h⟩))
    else
      calculate_test_result user (some test) st store

/-- The callback data dispatched by `process_test_answer`:
`"test_cancel"`, `"test_start"`, or `"answer_<n>"`. -/
inductive Callback where
  | testCancel
  | testStart
  | answer (n : Nat)
deriving Repr, DecidableEq

/-- Embeds `process_test_answer` (updated_handlers.py lines 277-321) as a
function of session and store: cancellation ends without touching either;
`test_start` shows the first question; an answer callback records the
answer (crashing on a missing question/bucket, with the session
unchanged) and then shows the next question or the result. -/
def process_test_answer (user : Int) (cb : Callback) (testOpt : Option TestDef)
    (st : SessionState) (store : List ResultRecord) :
    SessionState × List ResultRecord × StepResult :=
  match cb with
  | .testCancel => (st, store, .cancelled)
  | .testStart =>
    let r := show_test_question user testOpt st store
    (st, r.1, r.2)
  | .answer n =>
    match testOpt with
    | none => (st, store, .crashed)
    | some test =>
      match record_answer test st n with
      | none => (st, store, .crashed)
      | some st2 =>
        let r := show_test_question user (some test) st2 store
        (st2, r.1, r.2)

/-- Embeds `cancel_command` (updated_handlers.py lines 146-157): replies with
the cancellation message, clears `context.user_data` (discarding any
session, in whatever state), and ends; the result store is never
touched. -/
def cancel_command (_ud : Option SessionState) (store : List ResultRecord) :
    Option SessionState × List ResultRecord × StepResult :=
  (none, store, .cancelled)

/-- Sessions reachable through the engine: the freshly selected test
followed by any number of successful answer-received transitions. -/
inductive Reachable (test : TestDef) : SessionState → Prop
  | start : Reachable test (select_test test)
  | step {st st2 : SessionState} {a : Nat} :
      Reachable test st → record_answer test st a = some st2 → Reachable test st2

/-! The older revision (`handlers.py`).

`calculate_test_result` there (lines 630-670) sums the selected options'
callback **values** directly (`score += int(answer_value)`, skipping a
`ValueError`) and resolves the interpretation as the first
`(threshold, text)` pair with `score >= threshold`. -/

/-- handlers.py lines 648-654: the answers dict is iterated in insertion
(question) order; a value that fails `int()` is skipped (`ValueError` →
`pass`), embedded as `none`. -/
def old_calculate_score : List (Option Int) → Int
  | [] => 0
  | some v :: rest => v + old_calculate_score rest
  | none :: rest => old_calculate_score rest

/-- handlers.py lines 656-661: interpretation starts empty and becomes
the text of the first `(threshold, text)` pair with `score >= threshold`. -/
def old_find_interpretation : List (Int × String) → Int → String
  | [], _ => ""
  | (threshold, text) :: rest, score =>
    if score ≥ threshold then text else old_find_interpretation rest score

/-- The claim's correspondence between revisions: in the old data format
each option's callback value is the option's score, so the old revision's
answer values for a run are the selected options' scores (an out-of-range
selection has no value, `none`). -/
def oldAnswerValues (qs : List Question) (answers : List Nat) : List (Option Int) :=
  (qs.zip answers).map (fun p => p.1.scores.get? p.2)

/-- The claim's correspondence for interpretation tables: each
range entry becomes its `(min_score, text)` pair, in the same order. -/
def oldInterpTable (interps : List Interp) : List (Int × String) :=
  interps.map (fun e => (e.min_score, e.text))

/-- Well-keyed buckets: every truthy (non-empty) subscale id carried by a
question of the test has a bucket; an empty-string id needs none, since
the `if subscale:` guard skips its bucket append. After `select_test`
this holds whenever every question's subscale id is among the declared
`test.subscales` (the spec's §3 invariant for `Subscales` tests). -/
def bucketKeysOK (test : TestDef) (b : List (String × List Nat)) : Prop :=
  ∀ q ∈ test.questions, ∀ s, q.subscale = some s → s ≠ "" → hasKey b s = true

/-- The claim's per-subscale reference sum: over the question/answer
pairs of the subscale's questions, in encounter order, the selected
option's score at the corresponding global answer position. -/
def expectedSubscaleSum (test : TestDef) (ans : List Nat) (s : String) : Int :=
  (((test.questions.zip ans).filter (fun p => p.1.subscale == some s)).map
    (fun p => p.1.scores.getD p.2 0)).sum

/-- The claim's reference per-subscale score map, over the declared
subscales in order. -/
def expectedScores (test : TestDef) (ans : List Nat) : List (String × Int) :=
  test.subscales.map (fun s => (s, expectedSubscaleSum test ans s))

/-- The claim's reference per-subscale interpretation map. -/
def expectedInterps (test : TestDef) (ans : List Nat) : List (String × String) :=
  (expectedScores test ans).map
    (fun p => (p.1, findInterpretation (lookupD test.subscale_interpretations p.1 []) p.2))

/-! Concrete example tests (spec section 8, properties 6 and 7). -/

/-- The spec's example `Sum` test: two questions with option scores
`[0,1]` and `[0,2]`, interpretation table
`[{0,1,"low"},{2,3,"high"}]`. -/
def exampleTest : TestDef :=
  { name := "example"
    questions :=
      [ { text := "q1", answers := ["n1", "y1"], scores := [0, 1] }
      , { text := "q2", answers := ["n2", "y2"], scores := [0, 2] } ]
    calculation_type := .sum
    interpretations := [⟨0, 1, "low"⟩, ⟨2, 3, "high"⟩] }

/-- The spec's example `Subscales` test: subscales `A` and `B`, one
question each, with independent interpretation tables. -/
def exampleSubTest : TestDef :=
  { name := "exampleSub"
    questions :=
      [ { text := "qa", answers := ["a0", "a1"], scores := [0, 3], subscale := some "A" }
      , { text := "qb", answers := ["b0", "b1"], scores := [0, 1], subscale := some "B" } ]
    calculation_type := .subscales
    subscales := ["A", "B"]
    subscale_interpretations :=
      [ ("A", [⟨0, 1, "lowA"⟩, ⟨2, 3, "highA"⟩])
      , ("B", [⟨0, 1, "lowB"⟩, ⟨2, 3, "highB"⟩]) ] }

/-- A malformed test whose interpretation table has a gap: scores 2 and 3
are attainable but no range contains them. -/
def gapTest : TestDef :=
  { name := "gap"
    questions :=
      [ { text := "q1", answers := ["n1", "y1"], scores := [0, 1] }
      , { text := "q2", answers := ["n2", "y2"], scores := [0, 2] } ]
    calculation_type := .sum
    interpretations := [⟨0, 1, "low"⟩] }

/-- The example interpretation table rearranged in descending threshold
order, as the older revision's (threshold, text) data format expects. -/
def descInterps : List Interp := [⟨2, 3, "high"⟩, ⟨0, 1, "low"⟩]

/-- A degenerate test whose only declared subscale id is the empty
string: the `if subscale:` truthiness guard skips the bucket append for
it, so its bucket stays empty and the subscale scores 0 — not the
selected option's score. -/
def emptyIdTest : TestDef :=
  { name := "emptyId"
    questions :=
      [ { text := "q", answers := ["n", "y"], scores := [0, 5], subscale := some "" } ]
    calculation_type := .subscales
    subscales := [""]
    subscale_interpretations := [("", [⟨0, 9, "zero"⟩, ⟨10, 99, "big"⟩])] }

example : computeOutcome exampleTest ⟨2, [1, 1], []⟩ = some (.sumResult 3 "high") := by decide
example : computeOutcome exampleTest ⟨2, [0, 0], []⟩ = some (.sumResult 0 "low") := by decide
example : computeOutcome gapTest ⟨2, [1, 1], []⟩ = some (.sumResult 3 "") := by decide
example :
    runAnswers exampleSubTest (select_test exampleSubTest) [1, 1] =
      some ⟨2, [1, 1], [("A", [1]), ("B", [1])]⟩ := by decide
example :
    runAnswers emptyIdTest (select_test emptyIdTest) [1] =
      some ⟨1, [1], [("", [])]⟩ := by decide
example :
    computeOutcome emptyIdTest ⟨1, [1], [("", [])]⟩ =
      some (.subscalesResult [("", 0)] [("", "zero")]) := by decide
example :
    computeOutcome exampleSubTest ⟨2, [1, 1], [("A", [1]), ("B", [1])]⟩ =
      some (.subscalesResult [("A", 3), ("B", 1)] [("A", "highA"), ("B", "lowB")]) := by decide

/-! Helper lemmas. -/

/-- Scoring a list of (question, selected option) pairs with every option
index in range succeeds and yields the positional sum of option scores. -/
theorem scoreList_map_pairs :
    ∀ (pairs : List (Question × Nat)),
      (∀ p ∈ pairs, p.2 < p.1.scores.length) →
      scoreList (pairs.map Prod.fst) (pairs.map Prod.snd) =
        some ((pairs.map (fun p => p.1.scores.getD p.2 0)).sum)
  | [], _ => rfl
  | (q, a) :: pairs, hv => by
    have hhead : a < q.scores.length := hv (q, a) (List.mem_cons_self _ _)
    have htail : ∀ p ∈ pairs, p.2 < p.1.scores.length :=
      fun p hp => hv p (List.mem_cons_of_mem _ hp)
    simp only [List.map_cons, scoreList, List.get?_eq_get hhead,
      scoreList_map_pairs pairs htail, Option.map_some, List.sum_cons]
    rw [List.getD_eq_get? q.scores a 0, List.get?_eq_get hhead]
    rfl

/-- With a complete, in-range answer list, the sum-scoring loop succeeds
and returns the positional sum of the selected options' scores. -/
theorem scoreList_eq_sum (qs : List Question) (ans : List Nat)
    (hlen : ans.length = qs.length)
    (hv : ∀ p ∈ qs.zip ans, p.2 < p.1.scores.length) :
    scoreList qs ans = some (((qs.zip ans).map (fun p => p.1.scores.getD p.2 0)).sum) := by
  have h1 : (qs.zip ans).map Prod.fst = qs := List.map_fst_zip qs ans (le_of_eq hlen.symm)
  have h2 : (qs.zip ans).map Prod.snd = ans := List.map_snd_zip qs ans (le_of_eq hlen)
  calc scoreList qs ans
      = scoreList ((qs.zip ans).map Prod.fst) ((qs.zip ans).map Prod.snd) := by rw [h1, h2]
    _ = some (((qs.zip ans).map (fun p => p.1.scores.getD p.2 0)).sum) :=
        scoreList_map_pairs _ hv

/-- Appending at an existing key succeeds, preserves the key set, extends
the target bucket by the value and leaves every other bucket unchanged. -/
theorem bucketAppend_spec :
    ∀ (b : List (String × List Nat)) (key : String) (v : Nat),
      hasKey b key = true →
      ∃ b2, bucketAppend b key v = some b2 ∧
        (∀ k, hasKey b2 k = hasKey b k) ∧
        (∀ k, lookupD b2 k [] =
          if k = key then lookupD b k [] ++ [v] else lookupD b k [])
  | [], key, v, h => by simp [hasKey] at h
  | (k0, vs) :: rest, key, v, h => by
    by_cases hk : k0 = key
    · subst hk
      refine ⟨(k0, vs ++ [v]) :: rest, by simp [bucketAppend], fun k => by simp [hasKey], ?_⟩
      intro k
      by_cases hkk : k0 = k
      · subst hkk; simp [lookupD]
      · have : ¬ k = k0 := fun hh => hkk hh.symm
        simp [lookupD, hkk, this]
    · have h2 : hasKey rest key = true := by simpa [hasKey, hk] using h
      obtain ⟨b2, hb2, hkeys, hlook⟩ := bucketAppend_spec rest key v h2
      refine ⟨(k0, vs) :: b2, by simp [bucketAppend, hk, hb2], fun k => by simp [hasKey, hkeys], ?_⟩
      intro k
      by_cases hkk : k0 = k
      · subst hkk
        have : ¬ k0 = key := hk
        simp [lookupD, if_neg (fun hh : k0 = key => this hh)]
      · simp [lookupD, hkk, hlook]

/-- In the freshly initialized bucket dict, a key is present exactly when
it is a declared subscale id. -/
theorem hasKey_init :
    ∀ (l : List String) (key : String),
      hasKey (l.map (fun s => (s, ([] : List Nat)))) key = true ↔ key ∈ l
  | [], key => by simp [hasKey]
  | s :: rest, key => by
    by_cases h : s = key
    · subst h; simp [hasKey]
    · simp only [List.map_cons, hasKey, if_neg h]
      rw [hasKey_init rest key, List.mem_cons]
      have hns : ¬ key = s := fun hh => h hh.symm
      tauto

/-- In the freshly initialized bucket dict every bucket is empty. -/
theorem lookupD_init :
    ∀ (l : List String) (key : String),
      lookupD (l.map (fun s => (s, ([] : List Nat)))) key [] = []
  | [], _ => rfl
  | s :: rest, key => by by_cases h : s = key <;> simp [lookupD, h, lookupD_init rest key]

/-- A successful answer-received transition appends exactly the given
option index and advances the question index by exactly one. -/
theorem record_answer_some {test : TestDef} {st st2 : SessionState} {a : Nat}
    (h : record_answer test st a = some st2) :
    st2.answers = st.answers ++ [a] ∧ st2.current_question = st.current_question + 1 := by
  unfold record_answer at h
  repeat' split at h
  all_goals simp_all
  all_goals (cases h; exact ⟨rfl, rfl⟩)

/-- For a plain-sum test, replaying any answer list always succeeds,
appends the answers and advances the index by the list's length. -/
theorem runAnswers_sum (test : TestDef) (hcalc : test.calculation_type = .sum) :
    ∀ (ans : List Nat) (st : SessionState),
      runAnswers test st ans =
        some ⟨st.current_question + ans.length, st.answers ++ ans, st.subscale_answers⟩
  | [], st => by cases st; simp [runAnswers]
  | a :: rest, st => by
    simp only [runAnswers, record_answer, hcalc]
    rw [runAnswers_sum test hcalc rest]
    simp [Nat.add_assoc, Nat.add_comm 1 rest.length]

/-! Claim theorems. -/

/-- Claim C1: for every Sum-strategy test and every complete answer list of
valid option indices, the computed score is the sum over all question
positions of the selected option's score, with the matching interpretation;
on the spec's example test, answers [1,1] yield score 3 and
interpretation "high", and answers [0,0] yield score 0 and
interpretation "low". -/
theorem C1_sum_scoring (test : TestDef) (st : SessionState)
    (hcalc : test.calculation_type = .sum)
    (hlen : st.answers.length = test.questions.length)
    (hvalid : ∀ p ∈ test.questions.zip st.answers, p.2 < p.1.scores.length) :
    computeOutcome test st =
      some (.sumResult
        (((test.questions.zip st.answers).map (fun p => p.1.scores.getD p.2 0)).sum)
        (findInterpretation test.interpretations
          (((test.questions.zip st.answers).map (fun p => p.1.scores.getD p.2 0)).sum))) ∧
    computeOutcome exampleTest ⟨2, [1, 1], []⟩ = some (.sumResult 3 "high") ∧
    computeOutcome exampleTest ⟨2, [0, 0], []⟩ = some (.sumResult 0 "low") := by
  refine ⟨?_, by decide, by decide⟩
  simp [computeOutcome, hcalc, scoreList_eq_sum test.questions st.answers hlen hvalid]

/-- Witness for C1 at the spec's example test with answers [1,1]. -/
theorem C1_sum_scoring_witness :
    computeOutcome exampleTest ⟨2, [1, 1], []⟩ =
      some (.sumResult
        (((exampleTest.questions.zip [1, 1]).map (fun p => p.1.scores.getD p.2 0)).sum)
        (findInterpretation exampleTest.interpretations
          (((exampleTest.questions.zip [1, 1]).map (fun p => p.1.scores.getD p.2 0)).sum))) :=
  (C1_sum_scoring exampleTest ⟨2, [1, 1], []⟩ rfl (by decide) (by decide)).1

/-- Claim C2 as stated is false: on a malformed test whose interpretation
table has a gap (ranges [0,1] only, score 3 attainable), the computation
does not fail — it succeeds and returns the empty interpretation string. -/
theorem C2_counterexample :
    computeOutcome gapTest ⟨2, [1, 1], []⟩ ≠ none ∧
    computeOutcome gapTest ⟨2, [1, 1], []⟩ = some (.sumResult 3 "") := by
  exact ⟨by decide, by decide⟩

/-- Claim C2 amended: the resolved interpretation is the text of the first
entry of the table whose inclusive range contains the score; when no
entry's range contains the score, the computation does not fail with an
InterpretationGap error — it silently resolves the empty string, and the
engine still returns a successful result carrying it. -/
theorem C2_interpretation_lookup (score : Int) :
    (∀ (pre post : List Interp) (e : Interp),
      (∀ x ∈ pre, ¬ (x.min_score ≤ score ∧ score ≤ x.max_score)) →
      e.min_score ≤ score → score ≤ e.max_score →
      findInterpretation (pre ++ e :: post) score = e.text) ∧
    (∀ interps : List Interp,
      (∀ x ∈ interps, ¬ (x.min_score ≤ score ∧ score ≤ x.max_score)) →
      findInterpretation interps score = "") ∧
    (∀ (test : TestDef) (st : SessionState) (s : Int),
      test.calculation_type = .sum →
      scoreList test.questions st.answers = some s →
      computeOutcome test st =
        some (.sumResult s (findInterpretation test.interpretations s))) := by
  refine ⟨?_, ?_, ?_⟩
  · intro pre
    induction pre with
    | nil =>
      intro post e _ h1 h2
      simp [findInterpretation, h1, h2]
    | cons x pre ih =>
      intro post e hpre h1 h2
      have hx : ¬ (x.min_score ≤ score ∧ score ≤ x.max_score) :=
        hpre x (List.mem_cons_self _ _)
      have hrest : ∀ y ∈ pre, ¬ (y.min_score ≤ score ∧ score ≤ y.max_score) :=
        fun y hy => hpre y (List.mem_cons_of_mem _ hy)
      simp only [List.cons_append, findInterpretation, if_neg hx]
      exact ih post e hrest h1 h2
  · intro interps
    induction interps with
    | nil => intro _; rfl
    | cons x rest ih =>
      intro hall
      have hx : ¬ (x.min_score ≤ score ∧ score ≤ x.max_score) :=
        hall x (List.mem_cons_self _ _)
      simp only [findInterpretation, if_neg hx]
      exact ih (fun y hy => hall y (List.mem_cons_of_mem _ hy))
  · intro test st s hcalc hscore
    simp [computeOutcome, hcalc, hscore]

/-- Witness for C2's amended theorem on the gap table: score 3 matches no
entry of [[0,1]], so the resolved interpretation is the empty string. -/
theorem C2_interpretation_lookup_witness :
    findInterpretation gapTest.interpretations 3 = "" :=
  (C2_interpretation_lookup 3).2.1 gapTest.interpretations (by decide)

/-- Claim C3 as stated is false: on the example test, recording option
index 99 for the first question (which has only 2 options) does not fail —
it returns an updated session whose answers list has gained the entry 99
and whose question index has advanced, so the session is changed. -/
theorem C3_counterexample :
    (∃ q, exampleTest.questions.get? 0 = some q ∧ q.answers.length ≤ 99) ∧
    record_answer exampleTest (select_test exampleTest) 99 =
      some ⟨1, [99], []⟩ ∧
    (⟨1, [99], []⟩ : SessionState) ≠ select_test exampleTest := by
  refine ⟨⟨⟨"q1", ["n1", "y1"], [0, 1], none, false⟩, by decide, by decide⟩, by decide, by decide⟩

/-- Claim C3 amended: recording an answer performs no option-index
validation at all — for an in-progress session (current question exists
and, on a subscales test, its subscale has a bucket), any option index,
in range or not, is accepted: it is appended to the answers list and the
current question index advances by 1. An out-of-range index is only
detected later, when result computation crashes on the score lookup. -/
theorem C3_no_option_validation (test : TestDef) (st : SessionState) (n : Nat)
    (hq : st.current_question < test.questions.length)
    (hkey : ∀ q s, test.questions.get? st.current_question = some q →
      q.subscale = some s → hasKey st.subscale_answers s = true) :
    ∃ st2, record_answer test st n = some st2 ∧
      st2.answers = st.answers ++ [n] ∧
      st2.current_question = st.current_question + 1 := by
  cases hcalc : test.calculation_type with
  | sum =>
    exact ⟨⟨st.current_question + 1, st.answers ++ [n], st.subscale_answers⟩,
      by simp [record_answer, hcalc], rfl, rfl⟩
  | subscales =>
    have hget : test.questions[st.current_question]? =
        some (test.questions[st.current_question]) := List.getElem?_eq_getElem hq
    have hget0 : test.questions.get? st.current_question =
        some (test.questions[st.current_question]) :=
      (List.get?_eq_getElem? _ _).trans hget
    cases hsub : (test.questions[st.current_question]).subscale with
    | none =>
      exact ⟨⟨st.current_question + 1, st.answers ++ [n], st.subscale_answers⟩,
        by simp [record_answer, hcalc, hget, hsub], rfl, rfl⟩
    | some s =>
      by_cases hse : s = ""
      · exact ⟨⟨st.current_question + 1, st.answers ++ [n], st.subscale_answers⟩,
          by simp [record_answer, hcalc, hget, hsub, hse], rfl, rfl⟩
      · obtain ⟨b2, hb2, -, -⟩ :=
          bucketAppend_spec st.subscale_answers s n (hkey _ s hget0 hsub)
        exact ⟨⟨st.current_question + 1, st.answers ++ [n], b2⟩,
          by simp [record_answer, hcalc, hget, hsub, hse, hb2], rfl, rfl⟩

/-- Witness for C3's amended theorem: the out-of-range index 99 is
accepted on the fresh example session. -/
theorem C3_no_option_validation_witness :
    ∃ st2, record_answer exampleTest (select_test exampleTest) 99 = some st2 ∧
      st2.answers = (select_test exampleTest).answers ++ [99] ∧
      st2.current_question = (select_test exampleTest).current_question + 1 :=
  C3_no_option_validation exampleTest (select_test exampleTest) 99 (by decide)
    (by
      intro q s hget hsub
      have hq : q = ⟨"q1", ["n1", "y1"], [0, 1], none, false⟩ := by
        simpa [exampleTest, select_test] using hget.symm
      rw [hq] at hsub
      simp at hsub)

/-- Claim C6: in every reachable in-progress session the answers list
holds exactly one entry per answered question — its length equals the
current question index — and every successful answer transition appends
exactly one option index and advances the index by exactly 1. -/
theorem C6_answers_invariant (test : TestDef) (st : SessionState)
    (h : Reachable test st) :
    st.answers.length = st.current_question ∧
    (∀ (st0 st2 : SessionState) (a : Nat), record_answer test st0 a = some st2 →
      st2.answers = st0.answers ++ [a] ∧
      st2.current_question = st0.current_question + 1) := by
  refine ⟨?_, fun st0 st2 a ha => record_answer_some ha⟩
  induction h with
  | start => simp [select_test]
  | step _ hrec ih =>
    obtain ⟨h1, h2⟩ := record_answer_some hrec
    rw [h1, h2]
    simp [ih]

/-- Witness for C6 at the freshly selected example test. -/
theorem C6_answers_invariant_witness :
    (select_test exampleTest).answers.length = (select_test exampleTest).current_question ∧
    (∀ (st0 st2 : SessionState) (a : Nat), record_answer exampleTest st0 a = some st2 →
      st2.answers = st0.answers ++ [a] ∧
      st2.current_question = st0.current_question + 1) :=
  C6_answers_invariant exampleTest (select_test exampleTest) Reachable.start

/-- Claim C7: the score-and-interpretation computation is deterministic —
two runs on the same test and session produce the same outcome (scores
and interpretation texts; the timestamp is supplied by the database layer
and is not part of the computation). -/
theorem C7_deterministic (test : TestDef) (st : SessionState)
    (o1 o2 : Option TestOutcome)
    (h1 : computeOutcome test st = o1) (h2 : computeOutcome test st = o2) :
    o1 = o2 :=
  h1.symm.trans h2

/-- Witness for C7 on the example test. -/
theorem C7_deterministic_witness :
    (some (TestOutcome.sumResult 3 "high") : Option TestOutcome) =
      some (TestOutcome.sumResult 3 "high") :=
  C7_deterministic exampleTest ⟨2, [1, 1], []⟩ _ _ (by decide) (by decide)

/-- Claim C9: cancellation never touches the result store — the
`/cancel` command discards whatever session exists (terminal or not),
leaves every persisted result unchanged and raises no error, and the
`test_cancel` branch of the answer handler likewise ends the conversation
without computing a score or saving a result. -/
theorem C9_cancel_no_persistence (ud : Option SessionState) (user : Int)
    (testOpt : Option TestDef) (st : SessionState) (store : List ResultRecord) :
    cancel_command ud store = (none, store, .cancelled) ∧
    process_test_answer user .testCancel testOpt st store = (st, store, .cancelled) :=
  ⟨rfl, rfl⟩

/-- Claim C10: result computation rejects an empty answer set — with an
unknown test id or an empty collected-answers list (e.g. a test with zero
questions), `calculate_test_result` reports an error and ends without
computing a score or persisting anything; in particular no score-0 row is
ever stored for an empty answer set. -/
theorem C10_empty_answers_rejected (user : Int) (testOpt : Option TestDef)
    (st : SessionState) (store : List ResultRecord)
    (h : testOpt = none ∨ st.answers = []) :
    calculate_test_result user testOpt st store = (store, .errorEnded) := by
  rcases h with h | h
  · rw [h]; rfl
  · cases testOpt with
    | none => rfl
    | some test => simp [calculate_test_result, h]

/-- Witness for C10: the empty answer list on the example test. -/
theorem C10_empty_answers_rejected_witness :
    calculate_test_result 7 (some exampleTest) ⟨0, [], []⟩ [] = ([], .errorEnded) :=
  C10_empty_answers_rejected 7 (some exampleTest) ⟨0, [], []⟩ [] (Or.inr rfl)

/-- For a subscales test whose questions all find their bucket, replaying
an answer list that stays within the question sequence succeeds, appends
the answers, advances the index by the list's length, preserves the
bucket keys, and extends each subscale's bucket with exactly the answers
given to that subscale's questions, in encounter order. -/
theorem runAnswers_subscales (test : TestDef) (hcalc : test.calculation_type = .subscales) :
    ∀ (ans : List Nat) (st : SessionState),
      st.current_question + ans.length ≤ test.questions.length →
      bucketKeysOK test st.subscale_answers →
      ∃ st2, runAnswers test st ans = some st2 ∧
        st2.current_question = st.current_question + ans.length ∧
        st2.answers = st.answers ++ ans ∧
        (∀ k, hasKey st2.subscale_answers k = hasKey st.subscale_answers k) ∧
        (∀ s, lookupD st2.subscale_answers s [] =
          lookupD st.subscale_answers s [] ++
            (((test.questions.drop st.current_question).zip ans).filterMap
              (fun p => if p.1.subscale = some s ∧ s ≠ "" then some p.2 else none)))
  | [], st, _, _ => ⟨st, rfl, by simp, by simp, fun k => rfl, fun s => by simp⟩
  | a :: rest, st, hle, hbk => by
    have hle2 : st.current_question + 1 + rest.length ≤ test.questions.length := by
      simp only [List.length_cons] at hle; omega
    have hlt : st.current_question < test.questions.length := by omega
    have hget : test.questions[st.current_question]? =
        some (test.questions[st.current_question]) := List.getElem?_eq_getElem hlt
    have hmem : test.questions[st.current_question] ∈ test.questions :=
      List.getElem_mem hlt
    have hdrop : test.questions.drop st.current_question =
        test.questions[st.current_question] :: test.questions.drop (st.current_question + 1) :=
      List.drop_eq_getElem_cons hlt
    cases hsub : (test.questions[st.current_question]).subscale with
    | none =>
      have hrec : record_answer test st a =
          some ⟨st.current_question + 1, st.answers ++ [a], st.subscale_answers⟩ := by
        simp [record_answer, hcalc, hget, hsub]
      obtain ⟨st2, hrun, hcur, hans, hkeys, hlook⟩ :=
        runAnswers_subscales test hcalc rest
          ⟨st.current_question + 1, st.answers ++ [a], st.subscale_answers⟩ hle2 hbk
      dsimp only at hcur hans hkeys hlook
      refine ⟨st2, ?_, ?_, ?_, hkeys, ?_⟩
      · simp only [runAnswers, hrec, hrun]
      · rw [hcur]; simp only [List.length_cons]; omega
      · rw [hans]; simp
      · intro s
        rw [hlook s, hdrop, List.zip_cons_cons, List.filterMap_cons, hsub]
        simp
    | some s0 =>
      by_cases hse : s0 = ""
      · subst hse
        have hrec : record_answer test st a =
            some ⟨st.current_question + 1, st.answers ++ [a], st.subscale_answers⟩ := by
          simp [record_answer, hcalc, hget, hsub]
        obtain ⟨st2, hrun, hcur, hans, hkeys, hlook⟩ :=
          runAnswers_subscales test hcalc rest
            ⟨st.current_question + 1, st.answers ++ [a], st.subscale_answers⟩ hle2 hbk
        dsimp only at hcur hans hkeys hlook
        refine ⟨st2, ?_, ?_, ?_, hkeys, ?_⟩
        · simp only [runAnswers, hrec, hrun]
        · rw [hcur]; simp only [List.length_cons]; omega
        · rw [hans]; simp
        · intro s
          rw [hlook s, hdrop, List.zip_cons_cons, List.filterMap_cons, hsub]
          by_cases hs : s = ""
          · simp [hs]
          · have hns : ¬ ("" : String) = s := fun hh => hs hh.symm
            simp [hns]
      · have hk0 : hasKey st.subscale_answers s0 = true := hbk _ hmem s0 hsub hse
        obtain ⟨b2, hb2, hbkeys, hblook⟩ := bucketAppend_spec st.subscale_answers s0 a hk0
        have hrec : record_answer test st a =
            some ⟨st.current_question + 1, st.answers ++ [a], b2⟩ := by
          simp [record_answer, hcalc, hget, hsub, hse, hb2]
        have hbk2 : bucketKeysOK test b2 := by
          intro q hq s hs hsne
          rw [hbkeys s]
          exact hbk q hq s hs hsne
        obtain ⟨st2, hrun, hcur, hans, hkeys, hlook⟩ :=
          runAnswers_subscales test hcalc rest
            ⟨st.current_question + 1, st.answers ++ [a], b2⟩ hle2 hbk2
        dsimp only at hcur hans hkeys hlook
        refine ⟨st2, ?_, ?_, ?_, ?_, ?_⟩
        · simp only [runAnswers, hrec, hrun]
        · rw [hcur]; simp only [List.length_cons]; omega
        · rw [hans]; simp
        · intro k
          rw [hkeys k, hbkeys k]
        · intro s
          by_cases hss : s = s0
          · subst hss
            rw [hlook s, hblook s, if_pos rfl, hdrop, List.zip_cons_cons,
              List.filterMap_cons, hsub]
            simp [hse, List.append_assoc]
          · have hne : ¬ some s0 = some s := fun hh => hss (Option.some.inj hh).symm
            rw [hlook s, hblook s, if_neg hss, hdrop, List.zip_cons_cons,
              List.filterMap_cons, hsub]
            simp [hne]

/-- With a complete answer list, the subscale's questions are the first
components of the subscale's (question, answer) pairs. -/
theorem zip_filter_fst :
    ∀ (qs : List Question) (ans : List Nat), ans.length = qs.length →
      ∀ s, ((qs.zip ans).filter (fun p => p.1.subscale == some s)).map Prod.fst =
        qs.filter (fun q => q.subscale == some s)
  | [], [], _, s => rfl
  | [], a :: rest, h, s => by simp at h
  | q :: qs, [], h, s => by simp at h
  | q :: qs, a :: rest, h, s => by
    have hlen : rest.length = qs.length := by simpa using h
    by_cases hq : q.subscale = some s
    · simp [List.zip_cons_cons, List.filter_cons, hq, zip_filter_fst qs rest hlen s]
    · simp [List.zip_cons_cons, List.filter_cons, hq, zip_filter_fst qs rest hlen s]

/-- The bucket contents produced by the run are the second components of
the subscale's (question, answer) pairs. -/
theorem filterMap_eq_filter_map_snd :
    ∀ (l : List (Question × Nat)) (s : String),
      l.filterMap (fun p => if p.1.subscale = some s then some p.2 else none) =
        (l.filter (fun p => p.1.subscale == some s)).map Prod.snd
  | [], _ => rfl
  | p :: rest, s => by
    by_cases hp : p.1.subscale = some s
    · simp [List.filterMap_cons, List.filter_cons, hp, filterMap_eq_filter_map_snd rest s]
    · simp [List.filterMap_cons, List.filter_cons, hp, filterMap_eq_filter_map_snd rest s]

/-- When every declared subscale's score computes, the per-subscale score
map is the list of those scores over the declared subscales in order. -/
theorem subscaleScoresList_eq (test : TestDef) (b : List (String × List Nat))
    (f : String → Int) :
    ∀ ss : List String, (∀ s ∈ ss, subscaleScore test b s = some (f s)) →
      subscaleScoresList test b ss = some (ss.map (fun s => (s, f s)))
  | [], _ => rfl
  | s :: rest, h => by
    have hs : subscaleScore test b s = some (f s) := h s (List.mem_cons_self _ _)
    have hrest := subscaleScoresList_eq test b f rest
      (fun x hx => h x (List.mem_cons_of_mem _ hx))
    simp [subscaleScoresList, hs, hrest]

/-- Claim C4: for a Subscales-strategy test whose questions each carry a
declared subscale id — an id being a non-empty string, matching the
program's own `if subscale:` truthiness test, with duplicate-free
declared subscales, the spec's "ordered set" — completing the test with
valid option indices
yields, for each subscale, a score equal to the sum — over that
subscale's questions in encounter order — of the selected option's score
at the corresponding global answer position; the engine reports matching
per-subscale interpretations, and the single persisted total score is the
sum of the subscale scores. -/
theorem C4_subscales_scoring (test : TestDef) (ans : List Nat)
    (hcalc : test.calculation_type = .subscales)
    (hlen : ans.length = test.questions.length)
    (hvalid : ∀ p ∈ test.questions.zip ans, p.2 < p.1.scores.length)
    (hwf : ∀ q ∈ test.questions, ∀ s, q.subscale = some s → s ∈ test.subscales)
    (_hcarry : ∀ q ∈ test.questions, q.subscale ≠ none)
    (hids : ∀ s ∈ test.subscales, s ≠ "")
    (_hnodup : test.subscales.Nodup) :
    ∃ st2, runAnswers test (select_test test) ans = some st2 ∧
      computeOutcome test st2 =
        some (.subscalesResult (expectedScores test ans) (expectedInterps test ans)) ∧
      (∀ (user : Int) (store : List ResultRecord), ans ≠ [] →
        calculate_test_result user (some test) st2 store =
          (store ++ [{ user_id := user, test_type := test.name,
                       score := ((expectedScores test ans).map Prod.snd).sum,
                       answers := ans,
                       interpretation := interpretationsRepr (expectedInterps test ans) }],
           .resultReady (.subscalesResult (expectedScores test ans) (expectedInterps test ans)))) := by
  have hsel : (select_test test).subscale_answers =
      test.subscales.map (fun s => (s, ([] : List Nat))) := by
    simp [select_test, hcalc]
  have hbk : bucketKeysOK test (select_test test).subscale_answers := by
    intro q hq s hs _
    rw [hsel]
    exact (hasKey_init test.subscales s).2 (hwf q hq s hs)
  obtain ⟨st2, hrun, hcur, hans, -, hlook⟩ :=
    runAnswers_subscales test hcalc ans (select_test test)
      (by simp [select_test, hlen]) hbk
  have hans2 : st2.answers = ans := by simpa [select_test] using hans
  have hbucket : ∀ s ∈ test.subscales, lookupD st2.subscale_answers s [] =
      ((test.questions.zip ans).filter (fun p => p.1.subscale == some s)).map Prod.snd := by
    intro s hsmem
    have hs : s ≠ "" := hids s hsmem
    have hfun : (fun p : Question × Nat =>
        if p.1.subscale = some s ∧ s ≠ "" then some p.2 else none) =
        (fun p : Question × Nat => if p.1.subscale = some s then some p.2 else none) := by
      funext p
      by_cases hp : p.1.subscale = some s
      · simp [hp, hs]
      · simp [hp]
    rw [hlook s, hsel, lookupD_init, hfun]
    simp only [select_test, List.drop_zero, List.nil_append]
    exact filterMap_eq_filter_map_snd _ s
  have hscore : ∀ s ∈ test.subscales,
      subscaleScore test st2.subscale_answers s = some (expectedSubscaleSum test ans s) := by
    intro s hsmem
    unfold subscaleScore
    rw [hbucket s hsmem, ← zip_filter_fst test.questions ans hlen s]
    exact scoreList_map_pairs _
      (fun p hp => hvalid p (List.mem_of_mem_filter hp))
  have hlist : subscaleScoresList test st2.subscale_answers test.subscales =
      some (expectedScores test ans) :=
    subscaleScoresList_eq test st2.subscale_answers
      (expectedSubscaleSum test ans) test.subscales hscore
  have hout : computeOutcome test st2 =
      some (.subscalesResult (expectedScores test ans) (expectedInterps test ans)) := by
    simp [computeOutcome, hcalc, hlist, expectedInterps]
  refine ⟨st2, hrun, hout, ?_⟩
  intro user store hne
  have hempty : st2.answers.isEmpty = false := by
    rw [hans2]
    exact List.isEmpty_eq_false.2 hne
  simp [calculate_test_result, hempty, hout, resultRecord, hans2, hne]

/-- Witness for C4 on the spec's example subscale test, answering both
questions with option 1 (scores 3 for subscale A, 1 for subscale B). -/
theorem C4_subscales_scoring_witness :
    ∃ st2, runAnswers exampleSubTest (select_test exampleSubTest) [1, 1] = some st2 ∧
      computeOutcome exampleSubTest st2 =
        some (.subscalesResult (expectedScores exampleSubTest [1, 1])
          (expectedInterps exampleSubTest [1, 1])) ∧
      (∀ (user : Int) (store : List ResultRecord), [1, 1] ≠ ([] : List Nat) →
        calculate_test_result user (some exampleSubTest) st2 store =
          (store ++ [{ user_id := user, test_type := exampleSubTest.name,
                       score := ((expectedScores exampleSubTest [1, 1]).map Prod.snd).sum,
                       answers := [1, 1],
                       interpretation :=
                         interpretationsRepr (expectedInterps exampleSubTest [1, 1]) }],
           .resultReady (.subscalesResult (expectedScores exampleSubTest [1, 1])
             (expectedInterps exampleSubTest [1, 1])))) :=
  C4_subscales_scoring exampleSubTest [1, 1] rfl (by decide) (by decide)
    (by decide) (by decide) (by decide) (by decide)

/-- Claim C5: the next-question operation renders
`test.questions[currentIndex]` while `currentIndex < len(questions)` and
otherwise signals completion by invoking result computation; moreover,
starting a session and recording exactly `len(questions)` valid answers
(on a test whose questions' subscales, if any, are all declared) always
reaches the completion branch. -/
theorem C5_progression :
    (∀ (user : Int) (test : TestDef) (st : SessionState) (store : List ResultRecord)
      (h : st.current_question < test.questions.length),
      show_test_question user (some test) st store =
        (store, .askQuestion (test.questions.get ⟨st.current_question, h⟩))) ∧
    (∀ (user : Int) (test : TestDef) (st : SessionState) (store : List ResultRecord),
      test.questions.length ≤ st.current_question →
      show_test_question user (some test) st store =
        calculate_test_result user (some test) st store) ∧
    (∀ (test : TestDef) (ans : List Nat),
      ans.length = test.questions.length →
      (∀ p ∈ test.questions.zip ans, p.2 < p.1.scores.length) →
      (∀ q ∈ test.questions, ∀ s, q.subscale = some s → s ∈ test.subscales) →
      ∃ st2, runAnswers test (select_test test) ans = some st2 ∧
        test.questions.length ≤ st2.current_question ∧
        (∀ (user : Int) (store : List ResultRecord),
          show_test_question user (some test) st2 store =
            calculate_test_result user (some test) st2 store)) := by
  refine ⟨?_, ?_, ?_⟩
  · intro user test st store h
    simp [show_test_question, h]
  · intro user test st store h
    simp [show_test_question, Nat.not_lt.2 h]
  · intro test ans hlen _hvalid hwf
    cases hcalc : test.calculation_type with
    | sum =>
      refine ⟨⟨(select_test test).current_question + ans.length,
        (select_test test).answers ++ ans, (select_test test).subscale_answers⟩,
        runAnswers_sum test hcalc ans (select_test test), ?_, ?_⟩
      · simp [select_test, hlen]
      · intro user store
        have : test.questions.length ≤ (select_test test).current_question + ans.length := by
          simp [select_test, hlen]
        simp [show_test_question, Nat.not_lt.2 this]
    | subscales =>
      have hbk : bucketKeysOK test (select_test test).subscale_answers := by
        intro q hq s hs _
        have hsel : (select_test test).subscale_answers =
            test.subscales.map (fun s => (s, ([] : List Nat))) := by
          simp [select_test, hcalc]
        rw [hsel]
        exact (hasKey_init test.subscales s).2 (hwf q hq s hs)
      obtain ⟨st2, hrun, hcur, -, -, -⟩ :=
        runAnswers_subscales test hcalc ans (select_test test)
          (by simp [select_test, hlen]) hbk
      have hdone : test.questions.length ≤ st2.current_question := by
        rw [hcur]
        simp [select_test, hlen]
      refine ⟨st2, hrun, hdone, ?_⟩
      intro user store
      simp [show_test_question, Nat.not_lt.2 hdone]

/-- Witness for C5 on the example test: two valid answers reach the
completion branch. -/
theorem C5_progression_witness :
    ∃ st2, runAnswers exampleTest (select_test exampleTest) [1, 1] = some st2 ∧
      exampleTest.questions.length ≤ st2.current_question ∧
      (∀ (user : Int) (store : List ResultRecord),
        show_test_question user (some exampleTest) st2 store =
          calculate_test_result user (some exampleTest) st2 store) :=
  C5_progression.2.2 exampleTest [1, 1] (by decide) (by decide) (by decide)

/-- The old revision's score agrees with the new one whenever the new
sum-scoring succeeds, under the correspondence that each old answer value
is the selected option's score. -/
theorem old_score_eq_scoreList :
    ∀ (qs : List Question) (ans : List Nat) (S : Int),
      scoreList qs ans = some S →
      old_calculate_score (oldAnswerValues qs ans) = S
  | qs, [], S, h => by
    simp only [scoreList, Option.some.injEq] at h
    simp [oldAnswerValues, old_calculate_score, ← h]
  | [], a :: rest, S, h => by simp [scoreList] at h
  | q :: qs, a :: rest, S, h => by
    simp only [scoreList] at h
    cases hg : q.scores.get? a with
    | none => rw [hg] at h; simp at h
    | some s =>
      rw [hg] at h
      obtain ⟨T, hT, hS⟩ := Option.map_eq_some'.1 h
      have ih := old_score_eq_scoreList qs rest T hT
      have hunfold : oldAnswerValues (q :: qs) (a :: rest) =
          q.scores.get? a :: oldAnswerValues qs rest := rfl
      rw [hunfold, hg]
      show s + old_calculate_score (oldAnswerValues qs rest) = S
      rw [ih, hS]

/-- The old revision's first-threshold interpretation lookup agrees with
the new range lookup when the table is in descending contiguous order and
the score does not exceed the top range. -/
theorem old_interp_eq_of_desc :
    ∀ (interps : List Interp) (score : Int),
      List.Chain' (fun a b => a.min_score = b.max_score + 1) interps →
      (∀ e, interps.head? = some e → score ≤ e.max_score) →
      old_find_interpretation (oldInterpTable interps) score =
        findInterpretation interps score
  | [], score, _, _ => rfl
  | e :: rest, score, hchain, hhead => by
    have hmax : score ≤ e.max_score := hhead e rfl
    by_cases hge : e.min_score ≤ score
    · simp [oldInterpTable, old_find_interpretation, findInterpretation, hge, hmax]
    · have hhead2 : ∀ e2, rest.head? = some e2 → score ≤ e2.max_score := by
        intro e2 he2
        cases rest with
        | nil => simp at he2
        | cons x xs =>
          have hx : e.min_score = x.max_score + 1 := (List.chain'_cons.1 hchain).1
          have he2x : x = e2 := by simpa using he2
          subst he2x
          omega
      have ih := old_interp_eq_of_desc rest score hchain.tail hhead2
      simp only [oldInterpTable, List.map_cons, old_find_interpretation, findInterpretation]
      rw [if_neg hge, if_neg (fun hc => hge hc.1)]
      exact ih

/-- Claim C8 as stated is false: on the spec's own example test with
answers [1,1] the two revisions compute the same score 3, but the older
revision's interpretation lookup (first entry with score >= threshold, in
table order) resolves "low" while the newer range lookup resolves
"high". -/
theorem C8_counterexample :
    old_calculate_score (oldAnswerValues exampleTest.questions [1, 1]) = 3 ∧
    computeOutcome exampleTest ⟨2, [1, 1], []⟩ = some (.sumResult 3 "high") ∧
    old_find_interpretation (oldInterpTable exampleTest.interpretations) 3 = "low" ∧
    old_find_interpretation (oldInterpTable exampleTest.interpretations) 3 ≠
      findInterpretation exampleTest.interpretations 3 :=
  ⟨by decide, by decide, by decide, by decide⟩

/-- Claim C8 amended: under the correspondence between revisions (each old
answer value is the selected option's score; each range entry becomes its
(min_score, text) pair in table order), the two revisions always compute
equal scores; but their interpretation texts agree only when the table is
ordered by descending contiguous thresholds and the score does not exceed
the first entry's max_score — for a table in ascending range order (as the
newer format stores it) the interpretations can differ. -/
theorem C8_revision_comparison :
    (∀ (qs : List Question) (ans : List Nat) (S : Int),
      scoreList qs ans = some S →
      old_calculate_score (oldAnswerValues qs ans) = S) ∧
    (∀ (interps : List Interp) (score : Int),
      List.Chain' (fun a b => a.min_score = b.max_score + 1) interps →
      (∀ e, interps.head? = some e → score ≤ e.max_score) →
      old_find_interpretation (oldInterpTable interps) score =
        findInterpretation interps score) :=
  ⟨old_score_eq_scoreList, old_interp_eq_of_desc⟩

/-- Witness for C8's amended theorem: equal scores on the example run, and
equal interpretations on the descending-ordered table. -/
theorem C8_revision_comparison_witness :
    old_calculate_score (oldAnswerValues exampleTest.questions [1, 1]) = 3 ∧
    old_find_interpretation (oldInterpTable descInterps) 3 =
      findInterpretation descInterps 3 :=
  ⟨C8_revision_comparison.1 exampleTest.questions [1, 1] 3 (by decide),
   C8_revision_comparison.2 descInterps 3
     (List.chain'_cons.2 ⟨by decide, List.chain'_singleton _⟩) (by decide)⟩
